import Mathlib

/-!
Verification of the commit engine of the ASL Translator repository.

The commit engine is the sampling-loop logic in
src/components/ASLTranslator.tsx (the function named loop, lines 195-259)
together with the configuration setters of the zustand store in
src/store/aslStore.ts.  The engine turns a per-frame stream of
(label, confidence) classifier results into committed characters and
word-boundary spaces.

Shallow embedding choices:
- times (Date.now values, milliseconds) are integers (Int);
- confidences and the threshold (JS floating point numbers in [0,1]) are
  rationals, on which the comparisons performed by the code are exact;
- the mutable refs of the component become fields of EngineState:
  lastDetectedLabelRef, stableSinceRef, lastEmittedLabelRef,
  releaseStartRef keep their names without the Ref suffix;
  the pending setTimeout word-boundary timer becomes the field
  pendingDeadline holding its absolute deadline;
- the zustand store text is the field text, and the field out additionally
  logs every string passed to appendText, most recent first (so that
  statements about what is sent to the text sink can be made directly);
- one loop iteration that reaches the prediction code becomes onTick,
  the body of the boundary setTimeout callback becomes onFire.
-/

/-- Fixed constant LETTER_GAP_MS of ASLTranslator.tsx (line 25): inactivity
time after a commit before a word-boundary space is inserted. -/
def LETTER_GAP_MS : Int := 3000

/-- Fixed constant RELEASE_MS of ASLTranslator.tsx (line 29): required
time since the release timer started before the same letter may repeat. -/
def RELEASE_MS : Int := 300

/-- JavaScript String.prototype.toUpperCase as used on classifier labels:
uppercase the characters (ASCII mapping). -/
def jsToUpper (s : String) : String := String.mk (s.data.map Char.toUpper)

/-- JavaScript String.prototype.endsWith: the last characters of s are
exactly t. -/
def jsEndsWith (s t : String) : Bool :=
  s.data.drop (s.data.length - t.data.length) == t.data

/-- The action decided by one engine step: nothing, a committed character
string, or a word-boundary space. -/
inductive Act where
  | skip : Act
  | emit (s : String) : Act
  | boundary : Act
deriving DecidableEq, Repr

/-- Whether an action is a character commit. -/
def Act.isEmit : Act → Bool
  | Act.emit _ => true
  | _ => false

/-- The engine state: the mutable refs of the component, the pending
word-boundary deadline, and the text-sink content plus its append log. -/
structure EngineState where
  lastDetectedLabel : String
  stableSince : Int
  lastEmittedLabel : String
  releaseStart : Int
  pendingDeadline : Option Int
  text : String
  out : List String
deriving DecidableEq, Repr

/-- The above-threshold half of a tick (ASLTranslator.tsx lines 229-248),
run after the label-change tracking update has been applied to s:
commit when held long enough and the label differs from the last emitted
one or a release has completed; a commit appends the uppercased label,
clears the release timer and reschedules the boundary deadline. -/
def onTickHigh (hold : Int) (s : EngineState) (label : String) (now : Int) :
    EngineState × Act :=
  if (label ≠ s.lastEmittedLabel ∨
        (0 < s.releaseStart ∧ RELEASE_MS ≤ now - s.releaseStart)) ∧
      hold ≤ now - s.stableSince then
    ({ s with lastEmittedLabel := label,
              releaseStart := 0,
              pendingDeadline := some (now + LETTER_GAP_MS),
              text := s.text ++ jsToUpper label,
              out := jsToUpper label :: s.out },
     Act.emit (jsToUpper label))
  else
    (s, Act.skip)

/-- One engine tick (ASLTranslator.tsx lines 218-256): with confidence at
or above the threshold, restart the stability timer on a label change and
run the commit logic; below the threshold, start the release timer if it
is unset and clear the tracked label and stability timer. -/
def onTick (thr : ℚ) (hold : Int) (s : EngineState) (label : String)
    (conf : ℚ) (now : Int) : EngineState × Act :=
  if thr ≤ conf then
    onTickHigh hold
      (if s.lastDetectedLabel = label then s
       else { s with lastDetectedLabel := label, stableSince := now })
      label now
  else
    ({ s with lastDetectedLabel := "",
              stableSince := 0,
              releaseStart := if s.releaseStart = 0 then now else s.releaseStart },
     Act.skip)

/-- The body of the word-boundary setTimeout callback (ASLTranslator.tsx
lines 240-247): when a deadline is pending, it is consumed, and a space is
appended exactly when the current text is non-empty and does not already
end with a space. -/
def onFire (s : EngineState) : EngineState × Act :=
  match s.pendingDeadline with
  | none => (s, Act.skip)
  | some _ =>
    if s.text ≠ "" ∧ jsEndsWith s.text " " = false then
      ({ s with pendingDeadline := none,
                text := s.text ++ " ",
                out := " " :: s.out },
       Act.boundary)
    else
      ({ s with pendingDeadline := none }, Act.skip)

/-- An event processed by the engine: a sampling tick carrying the best
prediction and the current instant, or the firing of the pending
word-boundary timer. -/
inductive Ev where
  | tick (label : String) (conf : ℚ) (now : Int) : Ev
  | fire : Ev
deriving DecidableEq, Repr

/-- One engine step on an event. -/
def step (thr : ℚ) (hold : Int) (s : EngineState) : Ev → EngineState × Act
  | Ev.tick label conf now => onTick thr hold s label conf now
  | Ev.fire => onFire s

/-- Run the engine over a list of events, returning the final state and
the list of actions, one per event in order. -/
def runActs (thr : ℚ) (hold : Int) : EngineState → List Ev → EngineState × List Act
  | s, [] => (s, [])
  | s, e :: es =>
    ((runActs thr hold (step thr hold s e).1 es).1,
     (step thr hold s e).2 :: (runActs thr hold (step thr hold s e).1 es).2)

/-- The engine state at session start: all refs cleared, no pending
boundary timer, empty text. -/
def init : EngineState :=
  { lastDetectedLabel := "", stableSince := 0, lastEmittedLabel := "",
    releaseStart := 0, pendingDeadline := none, text := "", out := [] }

/-- A run of ticks that all carry the same label. -/
def uniformTicks (label : String) (ps : List (ℚ × Int)) : List Ev :=
  ps.map (fun p => Ev.tick label p.1 p.2)

/-- A run of ticks given as (label, confidence, time) triples. -/
def ticksOf (ts : List (String × ℚ × Int)) : List Ev :=
  ts.map (fun t => Ev.tick t.1 t.2.1 t.2.2)

/-- JavaScript Math.round on a rational: nearest integer, halves toward
positive infinity. -/
def jsRound (q : ℚ) : Int := ⌊q + 1/2⌋

/-- JavaScript Math.min on rationals. -/
def jsMin (a b : ℚ) : ℚ := if a ≤ b then a else b

/-- JavaScript Math.max on rationals. -/
def jsMax (a b : ℚ) : ℚ := if a ≤ b then b else a

/-- JavaScript Math.min on integer results. -/
def jsMinI (a b : Int) : Int := if a ≤ b then a else b

/-- JavaScript Math.max on integer results. -/
def jsMaxI (a b : Int) : Int := if a ≤ b then b else a

/-- The store setter setThreshold of aslStore.ts (line 448): clamp to
[0.70, 1.00]. -/
def setThreshold (v : ℚ) : ℚ := jsMin 1 (jsMax (7/10) v)

/-- The store setter setHoldMs of aslStore.ts (line 450): round to the
nearest integer, then clamp to [200, 1200]. -/
def setHoldMs (ms : ℚ) : Int := jsMinI 1200 (jsMaxI 200 (jsRound ms))

/-- The initial threshold of the store (aslStore.ts line 437). -/
def initialThreshold : ℚ := 95/100

/-- The initial hold duration of the store (aslStore.ts line 439). -/
def initialHoldMs : Int := 600

/-- A tick event carries a non-empty label and a positive instant; fire
events are unconstrained. -/
def tickOk : Ev → Bool
  | Ev.tick label _ now => decide (label ≠ "") && decide (0 < now)
  | Ev.fire => true

/-- Concrete state for the doubled-letter scenario: tracking A since t = 0,
nothing emitted yet (the state reached after the ticks at t = 0..500). -/
def c4Start : EngineState := ⟨"A", 0, "", 0, none, "", []⟩

/-- Below-threshold phase after the first drop at t = 650. -/
def c4Below : List (String × ℚ × Int) :=
  [("A", mkRat 80 100, 750), ("A", mkRat 80 100, 850)]

/-- Above-threshold phase after the first return tick at t = 950. -/
def c4Above : List (ℚ × Int) :=
  [(mkRat 97 100, 1050), (mkRat 97 100, 1150), (mkRat 97 100, 1250),
   (mkRat 97 100, 1350), (mkRat 97 100, 1450), (mkRat 97 100, 1550)]

/-- The trace refuting the continuity reading of the release: A commits
at t = 600, a single below-threshold tick occurs at t = 650, A stays
above threshold from t = 700 on and commits again at t = 1300. -/
def c3Trace : List (String × ℚ × Int) :=
  [("A", mkRat 97 100, 0), ("A", mkRat 97 100, 100), ("A", mkRat 97 100, 200),
   ("A", mkRat 97 100, 300), ("A", mkRat 97 100, 400), ("A", mkRat 97 100, 500),
   ("A", mkRat 97 100, 600),
   ("A", mkRat 80 100, 650),
   ("A", mkRat 97 100, 700), ("A", mkRat 97 100, 750), ("A", mkRat 97 100, 800),
   ("A", mkRat 97 100, 850), ("A", mkRat 97 100, 900), ("A", mkRat 97 100, 950),
   ("A", mkRat 97 100, 1000), ("A", mkRat 97 100, 1050), ("A", mkRat 97 100, 1100),
   ("A", mkRat 97 100, 1150), ("A", mkRat 97 100, 1200), ("A", mkRat 97 100, 1250),
   ("A", mkRat 97 100, 1300)]

/-! Basic step lemmas. -/

theorem runActs_cons (thr : ℚ) (hold : Int) (s : EngineState) (e : Ev) (es : List Ev) :
    runActs thr hold s (e :: es) =
      ((runActs thr hold (step thr hold s e).1 es).1,
       (step thr hold s e).2 :: (runActs thr hold (step thr hold s e).1 es).2) := rfl

theorem step_tick (thr : ℚ) (hold : Int) (s : EngineState) (label : String)
    (conf : ℚ) (now : Int) :
    step thr hold s (Ev.tick label conf now) = onTick thr hold s label conf now := rfl

theorem step_fire (thr : ℚ) (hold : Int) (s : EngineState) :
    step thr hold s Ev.fire = onFire s := rfl

theorem onTick_below (thr : ℚ) (hold : Int) (s : EngineState) (label : String)
    (conf : ℚ) (now : Int) (h : conf < thr) :
    onTick thr hold s label conf now =
      ({ s with lastDetectedLabel := "", stableSince := 0,
                releaseStart := if s.releaseStart = 0 then now else s.releaseStart },
       Act.skip) := by
  unfold onTick
  rw [if_neg (not_le.mpr h)]

theorem onTick_same (thr : ℚ) (hold : Int) (s : EngineState) (label : String)
    (conf : ℚ) (now : Int) (hd : s.lastDetectedLabel = label) (hc : thr ≤ conf) :
    onTick thr hold s label conf now = onTickHigh hold s label now := by
  unfold onTick
  rw [if_pos hc, if_pos hd]

theorem onTick_reset (thr : ℚ) (hold : Int) (s : EngineState) (label : String)
    (conf : ℚ) (now : Int) (hd : s.lastDetectedLabel ≠ label) (hc : thr ≤ conf) :
    onTick thr hold s label conf now =
      onTickHigh hold { s with lastDetectedLabel := label, stableSince := now }
        label now := by
  unfold onTick
  rw [if_pos hc, if_neg hd]

theorem onTickHigh_emit (hold : Int) (s : EngineState) (label : String) (now : Int)
    (h : (label ≠ s.lastEmittedLabel ∨
            (0 < s.releaseStart ∧ RELEASE_MS ≤ now - s.releaseStart)) ∧
          hold ≤ now - s.stableSince) :
    onTickHigh hold s label now =
      ({ s with lastEmittedLabel := label,
                releaseStart := 0,
                pendingDeadline := some (now + LETTER_GAP_MS),
                text := s.text ++ jsToUpper label,
                out := jsToUpper label :: s.out },
       Act.emit (jsToUpper label)) := by
  unfold onTickHigh
  rw [if_pos h]

theorem onTickHigh_skip (hold : Int) (s : EngineState) (label : String) (now : Int)
    (h : ¬ ((label ≠ s.lastEmittedLabel ∨
              (0 < s.releaseStart ∧ RELEASE_MS ≤ now - s.releaseStart)) ∧
            hold ≤ now - s.stableSince)) :
    onTickHigh hold s label now = (s, Act.skip) := by
  unfold onTickHigh
  rw [if_neg h]

theorem onTick_postEmit (thr : ℚ) (hold : Int) (s : EngineState) (label : String)
    (conf : ℚ) (now : Int) (hd : s.lastDetectedLabel = label)
    (he : s.lastEmittedLabel = label) (hr : s.releaseStart = 0) (hc : thr ≤ conf) :
    onTick thr hold s label conf now = (s, Act.skip) := by
  rw [onTick_same thr hold s label conf now hd hc]
  apply onTickHigh_skip
  rintro ⟨hne | ⟨hpos, _⟩, _⟩
  · exact hne he.symm
  · rw [hr] at hpos
    exact lt_irrefl 0 hpos

theorem postEmitRun (thr : ℚ) (hold : Int) (label : String) :
    ∀ (ps : List (ℚ × Int)) (s : EngineState),
      s.lastDetectedLabel = label → s.lastEmittedLabel = label →
      s.releaseStart = 0 → (∀ p ∈ ps, thr ≤ p.1) →
      runActs thr hold s (uniformTicks label ps) =
        (s, List.replicate ps.length Act.skip) := by
  intro ps
  induction ps with
  | nil => intro s _ _ _ _; rfl
  | cons p rest ih =>
    intro s hd he hr hconf
    have hu : uniformTicks label (p :: rest) =
        Ev.tick label p.1 p.2 :: uniformTicks label rest := rfl
    have hstep : step thr hold s (Ev.tick label p.1 p.2) = (s, Act.skip) :=
      onTick_postEmit thr hold s label p.1 p.2 hd he hr (hconf p (List.mem_cons_self p rest))
    rw [hu, runActs_cons, hstep,
        ih s hd he hr (fun q hq => hconf q (List.mem_cons_of_mem p hq))]
    simp [List.replicate]

theorem onTick_emit_state (thr : ℚ) (hold : Int) (s : EngineState) (label : String)
    (conf : ℚ) (now : Int)
    (h : (onTick thr hold s label conf now).2.isEmit = true) :
    (onTick thr hold s label conf now).1.lastDetectedLabel = label ∧
    (onTick thr hold s label conf now).1.lastEmittedLabel = label ∧
    (onTick thr hold s label conf now).1.releaseStart = 0 ∧
    (onTick thr hold s label conf now).1.pendingDeadline = some (now + LETTER_GAP_MS) ∧
    (onTick thr hold s label conf now).2 = Act.emit (jsToUpper label) ∧
    thr ≤ conf := by
  by_cases hc : thr ≤ conf
  · by_cases hd : s.lastDetectedLabel = label
    · rw [onTick_same thr hold s label conf now hd hc] at h ⊢
      unfold onTickHigh at h ⊢
      split_ifs at h ⊢ with hcond
      · exact ⟨hd, rfl, rfl, rfl, rfl, hc⟩
      · simp [Act.isEmit] at h
    · rw [onTick_reset thr hold s label conf now hd hc] at h ⊢
      unfold onTickHigh at h ⊢
      split_ifs at h ⊢ with hcond
      · exact ⟨rfl, rfl, rfl, rfl, rfl, hc⟩
      · simp [Act.isEmit] at h
  · rw [onTick_below thr hold s label conf now (not_le.mp hc)] at h
    simp [Act.isEmit] at h

theorem onTick_nonemit_deadline (thr : ℚ) (hold : Int) (s : EngineState)
    (label : String) (conf : ℚ) (now : Int)
    (h : (onTick thr hold s label conf now).2.isEmit = false) :
    (onTick thr hold s label conf now).1.pendingDeadline = s.pendingDeadline := by
  by_cases hc : thr ≤ conf
  · by_cases hd : s.lastDetectedLabel = label
    · rw [onTick_same thr hold s label conf now hd hc] at h ⊢
      unfold onTickHigh at h ⊢
      split_ifs at h ⊢ with hcond
      · simp [Act.isEmit] at h
      · rfl
    · rw [onTick_reset thr hold s label conf now hd hc] at h ⊢
      unfold onTickHigh at h ⊢
      split_ifs at h ⊢ with hcond
      · simp [Act.isEmit] at h
      · rfl
  · rw [onTick_below thr hold s label conf now (not_le.mp hc)]

theorem onFire_none (s : EngineState) (h : s.pendingDeadline = none) :
    onFire s = (s, Act.skip) := by
  unfold onFire
  rw [h]

/-- C7: a tick whose confidence is below the threshold commits nothing
(the action is skip), clears the tracked label and the stability timer,
and starts the release timer at the current instant exactly when it was
previously unset, leaving it unchanged otherwise. -/
theorem subthreshold_no_commit (thr : ℚ) (hold : Int) (s : EngineState)
    (label : String) (conf : ℚ) (now : Int) (h : conf < thr) :
    onTick thr hold s label conf now =
      ({ s with lastDetectedLabel := "", stableSince := 0,
                releaseStart := if s.releaseStart = 0 then now else s.releaseStart },
       Act.skip) :=
  onTick_below thr hold s label conf now h

/-- Witness for C7 at a concrete below-threshold tick from the initial
state: the release timer starts at the tick instant 650. -/
theorem subthreshold_no_commit_witness :
    mkRat 80 100 < mkRat 95 100 ∧
    onTick (mkRat 95 100) 600 init "A" (mkRat 80 100) 650 =
      ({ init with lastDetectedLabel := "", stableSince := 0,
                   releaseStart := if init.releaseStart = 0 then 650 else init.releaseStart },
       Act.skip) :=
  ⟨by decide, subthreshold_no_commit (mkRat 95 100) 600 init "A" (mkRat 80 100) 650 (by decide)⟩

/-- C10: setThreshold clamps its input to the interval from 0.70 to 1.00
and setHoldMs rounds to the nearest integer and clamps to the interval
from 200 to 1200; in particular setThreshold (0.5) is 0.70,
setThreshold (1.5) is 1.00, setHoldMs 50 is 200 and setHoldMs 5000 is
1200, the results always lie in the documented ranges, and the initial
store values 0.95 and 600 lie in those ranges as well. -/
theorem config_clamping :
    (∀ v : ℚ, setThreshold v = min 1 (max (7/10) v)) ∧
    (∀ ms : ℚ, setHoldMs ms = min 1200 (max 200 ⌊ms + 1/2⌋)) ∧
    setThreshold (1/2) = 7/10 ∧ setThreshold (3/2) = 1 ∧
    setHoldMs 50 = 200 ∧ setHoldMs 5000 = 1200 ∧
    (∀ v : ℚ, 7/10 ≤ setThreshold v ∧ setThreshold v ≤ 1) ∧
    (∀ ms : ℚ, 200 ≤ setHoldMs ms ∧ setHoldMs ms ≤ 1200) ∧
    7/10 ≤ initialThreshold ∧ initialThreshold ≤ 1 ∧
    200 ≤ initialHoldMs ∧ initialHoldMs ≤ 1200 := by
  refine ⟨?_, ?_, ?_, ?_, ?_, ?_, ?_, ?_, ?_, ?_, ?_, ?_⟩
  · intro v
    simp [setThreshold, jsMin, jsMax, min_def, max_def]
  · intro ms
    simp [setHoldMs, jsRound, jsMinI, jsMaxI, min_def, max_def]
  · norm_num [setThreshold, jsMin, jsMax]
  · norm_num [setThreshold, jsMin, jsMax]
  · norm_num [setHoldMs, jsRound, jsMinI, jsMaxI]
  · norm_num [setHoldMs, jsRound, jsMinI, jsMaxI]
  · intro v
    unfold setThreshold jsMin jsMax
    constructor <;> split_ifs <;> linarith
  · intro ms
    unfold setHoldMs jsMinI jsMaxI
    constructor <;> split_ifs <;> linarith
  · norm_num [initialThreshold]
  · norm_num [initialThreshold]
  · norm_num [initialHoldMs]
  · norm_num [initialHoldMs]

/-- C5: the word-boundary callback is idempotent per gap: with no pending
deadline it does nothing; firing consumes the deadline; a space is
appended exactly when the text is non-empty and does not already end with
a space (so a space is never first and never follows a space); and firing
again without an intervening commit does nothing. -/
theorem boundary_idempotent (s : EngineState) :
    (s.pendingDeadline = none → onFire s = (s, Act.skip)) ∧
    (onFire s).1.pendingDeadline = none ∧
    ((onFire s).2 = Act.boundary →
       s.text ≠ "" ∧ jsEndsWith s.text " " = false ∧
       (onFire s).1.text = s.text ++ " " ∧ (onFire s).1.out = " " :: s.out) ∧
    ((onFire s).2 ≠ Act.boundary →
       (onFire s).1.text = s.text ∧ (onFire s).1.out = s.out) ∧
    onFire (onFire s).1 = ((onFire s).1, Act.skip) := by
  rcases hp : s.pendingDeadline with _ | d
  · have h := onFire_none s hp
    rw [h]
    exact ⟨fun _ => rfl, hp, fun hb => Act.noConfusion hb, fun _ => ⟨rfl, rfl⟩,
           onFire_none s hp⟩
  · have hsome : onFire s =
        if s.text ≠ "" ∧ jsEndsWith s.text " " = false then
          ({ s with pendingDeadline := none, text := s.text ++ " ",
                    out := " " :: s.out }, Act.boundary)
        else
          ({ s with pendingDeadline := none }, Act.skip) := by
      unfold onFire
      rw [hp]
    by_cases hc : s.text ≠ "" ∧ jsEndsWith s.text " " = false
    · rw [hsome, if_pos hc]
      refine ⟨?_, rfl, ?_, ?_, ?_⟩
      · intro hnone
        exact absurd hnone (by simp)
      · intro _
        exact ⟨hc.1, hc.2, rfl, rfl⟩
      · intro hb
        exact absurd rfl hb
      · exact onFire_none _ rfl
    · rw [hsome, if_neg hc]
      refine ⟨?_, rfl, ?_, ?_, ?_⟩
      · intro hnone
        exact absurd hnone (by simp)
      · intro hb
        exact Act.noConfusion hb
      · intro _
        exact ⟨rfl, rfl⟩
      · exact onFire_none _ rfl

/-- Witness for C5 at a concrete state with a pending deadline and text
that neither is empty nor ends in a space: the callback appends exactly
one space, and firing again changes nothing. -/
theorem boundary_idempotent_witness :
    ((⟨"A", 0, "A", 0, some 3600, "AB", ["B", "A"]⟩ : EngineState).pendingDeadline = none →
       onFire ⟨"A", 0, "A", 0, some 3600, "AB", ["B", "A"]⟩ =
         (⟨"A", 0, "A", 0, some 3600, "AB", ["B", "A"]⟩, Act.skip)) ∧
    (onFire ⟨"A", 0, "A", 0, some 3600, "AB", ["B", "A"]⟩).1.pendingDeadline = none ∧
    ((onFire ⟨"A", 0, "A", 0, some 3600, "AB", ["B", "A"]⟩).2 = Act.boundary →
       ("AB" : String) ≠ "" ∧ jsEndsWith "AB" " " = false ∧
       (onFire ⟨"A", 0, "A", 0, some 3600, "AB", ["B", "A"]⟩).1.text = "AB" ++ " " ∧
       (onFire ⟨"A", 0, "A", 0, some 3600, "AB", ["B", "A"]⟩).1.out = " " :: ["B", "A"]) ∧
    ((onFire ⟨"A", 0, "A", 0, some 3600, "AB", ["B", "A"]⟩).2 ≠ Act.boundary →
       (onFire ⟨"A", 0, "A", 0, some 3600, "AB", ["B", "A"]⟩).1.text = "AB" ∧
       (onFire ⟨"A", 0, "A", 0, some 3600, "AB", ["B", "A"]⟩).1.out = ["B", "A"]) ∧
    onFire (onFire ⟨"A", 0, "A", 0, some 3600, "AB", ["B", "A"]⟩).1 =
      ((onFire ⟨"A", 0, "A", 0, some 3600, "AB", ["B", "A"]⟩).1, Act.skip) :=
  boundary_idempotent ⟨"A", 0, "A", 0, some 3600, "AB", ["B", "A"]⟩

/-- C6: every commit replaces any pending boundary deadline with a
deadline exactly LETTER_GAP_MS = 3000 milliseconds after the commit
instant, a non-committing tick leaves the pending deadline unchanged, and
the callback does nothing when no deadline is pending (a cancelled
deadline cannot fire). -/
theorem boundary_reschedule :
    (∀ (thr : ℚ) (hold : Int) (s : EngineState) (label : String) (conf : ℚ) (now : Int),
        (onTick thr hold s label conf now).2.isEmit = true →
        (onTick thr hold s label conf now).1.pendingDeadline =
          some (now + LETTER_GAP_MS)) ∧
    (∀ (thr : ℚ) (hold : Int) (s : EngineState) (label : String) (conf : ℚ) (now : Int),
        (onTick thr hold s label conf now).2.isEmit = false →
        (onTick thr hold s label conf now).1.pendingDeadline = s.pendingDeadline) ∧
    (∀ s : EngineState, s.pendingDeadline = none → onFire s = (s, Act.skip)) ∧
    LETTER_GAP_MS = 3000 := by
  refine ⟨?_, ?_, onFire_none, rfl⟩
  · intro thr hold s label conf now h
    exact (onTick_emit_state thr hold s label conf now h).2.2.2.1
  · intro thr hold s label conf now h
    exact onTick_nonemit_deadline thr hold s label conf now h

/-- Witness for C6: a commit at instant 600 from a state with an older
pending deadline 100 reschedules the deadline to 600 + 3000. -/
theorem boundary_reschedule_witness :
    (onTick (mkRat 95 100) 600 (⟨"A", 0, "", 0, some 100, "", []⟩ : EngineState)
        "A" (mkRat 97 100) 600).2.isEmit = true ∧
    (onTick (mkRat 95 100) 600 (⟨"A", 0, "", 0, some 100, "", []⟩ : EngineState)
        "A" (mkRat 97 100) 600).1.pendingDeadline = some (600 + LETTER_GAP_MS) :=
  ⟨by decide,
   boundary_reschedule.1 (mkRat 95 100) 600 ⟨"A", 0, "", 0, some 100, "", []⟩
     "A" (mkRat 97 100) 600 (by decide)⟩

/-- C2: after a tick commits a label, further ticks that keep reporting
the same label at or above the threshold never commit again, whatever
their times: the committed label equals the last emitted one and the
release timer is clear, so the commit guard stays false. -/
theorem no_duplicate_without_release (thr : ℚ) (hold : Int) (s : EngineState)
    (label : String) (conf : ℚ) (now : Int)
    (hemit : (onTick thr hold s label conf now).2.isEmit = true)
    (ps : List (ℚ × Int)) (hconf : ∀ p ∈ ps, thr ≤ p.1) :
    (runActs thr hold (onTick thr hold s label conf now).1
        (uniformTicks label ps)).2 =
      List.replicate ps.length Act.skip := by
  obtain ⟨hd, he, hr, -, -, -⟩ := onTick_emit_state thr hold s label conf now hemit
  rw [postEmitRun thr hold label ps (onTick thr hold s label conf now).1 hd he hr hconf]

/-- Witness for C2: after the commit of A at t = 600, ticks reporting A
above threshold at t = 700, 10000 and 100000 all do nothing. -/
theorem no_duplicate_without_release_witness :
    (onTick (mkRat 95 100) 600 (⟨"A", 0, "", 0, none, "", []⟩ : EngineState)
        "A" (mkRat 97 100) 600).2.isEmit = true ∧
    (∀ p ∈ [(mkRat 97 100, (700 : Int)), (mkRat 97 100, 10000),
            (mkRat 97 100, 100000)], mkRat 95 100 ≤ p.1) ∧
    (runActs (mkRat 95 100) 600
        (onTick (mkRat 95 100) 600 (⟨"A", 0, "", 0, none, "", []⟩ : EngineState)
          "A" (mkRat 97 100) 600).1
        (uniformTicks "A"
          [(mkRat 97 100, 700), (mkRat 97 100, 10000), (mkRat 97 100, 100000)])).2 =
      List.replicate 3 Act.skip :=
  ⟨by decide, by decide,
   no_duplicate_without_release (mkRat 95 100) 600 ⟨"A", 0, "", 0, none, "", []⟩
     "A" (mkRat 97 100) 600 (by decide) _ (by decide)⟩

/-- Helper: over a run of same-label above-threshold ticks whose state
already tracks that label, the engine commits exactly at the first tick
whose time reaches stableSince + hold, provided the commit guard (label
differs from the last emitted one, or a completed release) holds at every
tick time; all other ticks do nothing. -/
theorem dwellRun (thr : ℚ) (hold : Int) (label : String) :
    ∀ (ps : List (ℚ × Int)) (s : EngineState),
      s.lastDetectedLabel = label →
      (∀ p ∈ ps, thr ≤ p.1) →
      (∀ p ∈ ps, label ≠ s.lastEmittedLabel ∨
          (0 < s.releaseStart ∧ RELEASE_MS ≤ p.2 - s.releaseStart)) →
      ((∀ p ∈ ps, p.2 - s.stableSince < hold) ∧
        (runActs thr hold s (uniformTicks label ps)).2 =
          List.replicate ps.length Act.skip) ∨
      (∃ us1 p us2, ps = us1 ++ p :: us2 ∧
        (∀ q ∈ us1, q.2 - s.stableSince < hold) ∧
        hold ≤ p.2 - s.stableSince ∧
        (runActs thr hold s (uniformTicks label ps)).2 =
          List.replicate us1.length Act.skip ++
            Act.emit (jsToUpper label) :: List.replicate us2.length Act.skip) := by
  intro ps
  induction ps with
  | nil =>
    intro s _ _ _
    exact Or.inl ⟨by simp, rfl⟩
  | cons p rest ih =>
    intro s hd hconf hguard
    have hu : uniformTicks label (p :: rest) =
        Ev.tick label p.1 p.2 :: uniformTicks label rest := rfl
    by_cases hheld : hold ≤ p.2 - s.stableSince
    · right
      have hstep : onTick thr hold s label p.1 p.2 =
          ({ s with lastEmittedLabel := label,
                    releaseStart := 0,
                    pendingDeadline := some (p.2 + LETTER_GAP_MS),
                    text := s.text ++ jsToUpper label,
                    out := jsToUpper label :: s.out },
           Act.emit (jsToUpper label)) := by
        rw [onTick_same thr hold s label p.1 p.2 hd (hconf p (List.mem_cons_self p rest))]
        exact onTickHigh_emit hold s label p.2
          ⟨hguard p (List.mem_cons_self p rest), hheld⟩
      have hrest := postEmitRun thr hold label rest
        ({ s with lastEmittedLabel := label,
                  releaseStart := 0,
                  pendingDeadline := some (p.2 + LETTER_GAP_MS),
                  text := s.text ++ jsToUpper label,
                  out := jsToUpper label :: s.out })
        hd rfl rfl (fun q hq => hconf q (List.mem_cons_of_mem p hq))
      refine ⟨[], p, rest, rfl, by simp, hheld, ?_⟩
      rw [hu, runActs_cons, step_tick, hstep, hrest]
      simp
    · have hstep : onTick thr hold s label p.1 p.2 = (s, Act.skip) := by
        rw [onTick_same thr hold s label p.1 p.2 hd (hconf p (List.mem_cons_self p rest))]
        exact onTickHigh_skip hold s label p.2 (fun hcond => hheld hcond.2)
      have IH := ih s hd (fun q hq => hconf q (List.mem_cons_of_mem p hq))
        (fun q hq => hguard q (List.mem_cons_of_mem p hq))
      rcases IH with ⟨hall, hacts⟩ | ⟨us1, q, us2, heq, hus1, hq, hacts⟩
      · left
        constructor
        · intro r hr
          rcases List.mem_cons.mp hr with hre | hrm
          · rw [hre]
            exact not_le.mp hheld
          · exact hall r hrm
        · rw [hu, runActs_cons, step_tick, hstep, hacts]
          simp [List.replicate_succ]
      · right
        refine ⟨p :: us1, q, us2, by rw [heq]; rfl, ?_, hq, ?_⟩
        · intro r hr
          rcases List.mem_cons.mp hr with hre | hrm
          · rw [hre]
            exact not_le.mp hheld
          · exact hus1 r hrm
        · rw [hu, runActs_cons, step_tick, hstep, hacts]
          simp [List.replicate_succ]

/-- C1: from the initial state, over a run of ticks that all report the
same non-empty label at or above the threshold, no tick commits while its
time is within hold of the first tick time, and exactly one commit of the
uppercased label happens, at the first tick whose time reaches the first
tick time plus hold (if any tick does); every other action is skip. -/
theorem dwell_first_commit (thr : ℚ) (hold : Int) (L : String) (hL : L ≠ "")
    (c0 : ℚ) (t0 : Int) (rest : List (ℚ × Int))
    (hc0 : thr ≤ c0) (hrest : ∀ p ∈ rest, thr ≤ p.1) :
    ((∀ p ∈ (c0, t0) :: rest, p.2 - t0 < hold) ∧
      (runActs thr hold init (uniformTicks L ((c0, t0) :: rest))).2 =
        List.replicate ((c0, t0) :: rest).length Act.skip) ∨
    (∃ us1 p us2, (c0, t0) :: rest = us1 ++ p :: us2 ∧
      (∀ q ∈ us1, q.2 - t0 < hold) ∧ hold ≤ p.2 - t0 ∧
      (runActs thr hold init (uniformTicks L ((c0, t0) :: rest))).2 =
        List.replicate us1.length Act.skip ++
          Act.emit (jsToUpper L) :: List.replicate us2.length Act.skip) := by
  have hd0 : init.lastDetectedLabel ≠ L := fun h => hL h.symm
  have hu : uniformTicks L ((c0, t0) :: rest) =
      Ev.tick L c0 t0 :: uniformTicks L rest := rfl
  by_cases h0 : hold ≤ t0 - t0
  · right
    have hstep : onTick thr hold init L c0 t0 =
        ({ init with lastDetectedLabel := L, stableSince := t0,
                     lastEmittedLabel := L,
                     releaseStart := 0,
                     pendingDeadline := some (t0 + LETTER_GAP_MS),
                     text := init.text ++ jsToUpper L,
                     out := jsToUpper L :: init.out },
         Act.emit (jsToUpper L)) := by
      rw [onTick_reset thr hold init L c0 t0 hd0 hc0]
      exact onTickHigh_emit hold
        { init with lastDetectedLabel := L, stableSince := t0 } L t0
        ⟨Or.inl hL, h0⟩
    have hrestAll := postEmitRun thr hold L rest
      ({ init with lastDetectedLabel := L, stableSince := t0,
                   lastEmittedLabel := L,
                   releaseStart := 0,
                   pendingDeadline := some (t0 + LETTER_GAP_MS),
                   text := init.text ++ jsToUpper L,
                   out := jsToUpper L :: init.out })
      rfl rfl rfl hrest
    refine ⟨[], (c0, t0), rest, rfl, by simp, h0, ?_⟩
    rw [hu, runActs_cons, step_tick, hstep, hrestAll]
    simp
  · have hstep : onTick thr hold init L c0 t0 =
        ({ init with lastDetectedLabel := L, stableSince := t0 }, Act.skip) := by
      rw [onTick_reset thr hold init L c0 t0 hd0 hc0]
      exact onTickHigh_skip hold
        { init with lastDetectedLabel := L, stableSince := t0 } L t0
        (fun hcond => h0 hcond.2)
    have hDR := dwellRun thr hold L rest
      ({ init with lastDetectedLabel := L, stableSince := t0 })
      rfl hrest (fun p _ => Or.inl hL)
    rcases hDR with ⟨hall, hacts⟩ | ⟨us1, q, us2, heq, hus1, hq, hacts⟩
    · left
      constructor
      · intro r hr
        rcases List.mem_cons.mp hr with hre | hrm
        · rw [hre]
          simpa using not_le.mp h0
        · exact hall r hrm
      · rw [hu, runActs_cons, step_tick, hstep, hacts]
        simp [List.replicate_succ]
    · right
      refine ⟨(c0, t0) :: us1, q, us2, by rw [heq]; rfl, ?_, hq, ?_⟩
      · intro r hr
        rcases List.mem_cons.mp hr with hre | hrm
        · rw [hre]
          simpa using not_le.mp h0
        · exact hus1 r hrm
      · rw [hu, runActs_cons, step_tick, hstep, hacts]
        simp [List.replicate_succ]

/-- Witness for C1, the end-to-end scenario of the specification:
threshold 0.95, hold 600, ticks at t = 0, 100, ..., 1000 all reporting
(A, 0.97); the action list is skip six times, then the commit of A at
t = 600, then skip four times. -/
theorem dwell_first_commit_witness :
    ("A" : String) ≠ "" ∧
    mkRat 95 100 ≤ mkRat 97 100 ∧
    (∀ p ∈ [(mkRat 97 100, (100 : Int)), (mkRat 97 100, 200), (mkRat 97 100, 300),
            (mkRat 97 100, 400), (mkRat 97 100, 500), (mkRat 97 100, 600),
            (mkRat 97 100, 700), (mkRat 97 100, 800), (mkRat 97 100, 900),
            (mkRat 97 100, 1000)], mkRat 95 100 ≤ p.1) ∧
    (runActs (mkRat 95 100) 600 init
        (uniformTicks "A"
          ((mkRat 97 100, 0) ::
           [(mkRat 97 100, 100), (mkRat 97 100, 200), (mkRat 97 100, 300),
            (mkRat 97 100, 400), (mkRat 97 100, 500), (mkRat 97 100, 600),
            (mkRat 97 100, 700), (mkRat 97 100, 800), (mkRat 97 100, 900),
            (mkRat 97 100, 1000)]))).2 =
      [Act.skip, Act.skip, Act.skip, Act.skip, Act.skip, Act.skip,
       Act.emit "A", Act.skip, Act.skip, Act.skip, Act.skip] ∧
    (((∀ p ∈ (mkRat 97 100, (0 : Int)) ::
            [(mkRat 97 100, 100), (mkRat 97 100, 200), (mkRat 97 100, 300),
             (mkRat 97 100, 400), (mkRat 97 100, 500), (mkRat 97 100, 600),
             (mkRat 97 100, 700), (mkRat 97 100, 800), (mkRat 97 100, 900),
             (mkRat 97 100, 1000)], p.2 - 0 < 600) ∧
       (runActs (mkRat 95 100) 600 init
           (uniformTicks "A"
             ((mkRat 97 100, 0) ::
              [(mkRat 97 100, 100), (mkRat 97 100, 200), (mkRat 97 100, 300),
               (mkRat 97 100, 400), (mkRat 97 100, 500), (mkRat 97 100, 600),
               (mkRat 97 100, 700), (mkRat 97 100, 800), (mkRat 97 100, 900),
               (mkRat 97 100, 1000)]))).2 =
         List.replicate ((mkRat 97 100, (0 : Int)) ::
            [(mkRat 97 100, 100), (mkRat 97 100, 200), (mkRat 97 100, 300),
             (mkRat 97 100, 400), (mkRat 97 100, 500), (mkRat 97 100, 600),
             (mkRat 97 100, 700), (mkRat 97 100, 800), (mkRat 97 100, 900),
             (mkRat 97 100, 1000)]).length Act.skip) ∨
     (∃ us1 p us2, (mkRat 97 100, (0 : Int)) ::
            [(mkRat 97 100, 100), (mkRat 97 100, 200), (mkRat 97 100, 300),
             (mkRat 97 100, 400), (mkRat 97 100, 500), (mkRat 97 100, 600),
             (mkRat 97 100, 700), (mkRat 97 100, 800), (mkRat 97 100, 900),
             (mkRat 97 100, 1000)] = us1 ++ p :: us2 ∧
       (∀ q ∈ us1, q.2 - 0 < 600) ∧ (600 : Int) ≤ p.2 - 0 ∧
       (runActs (mkRat 95 100) 600 init
           (uniformTicks "A"
             ((mkRat 97 100, 0) ::
              [(mkRat 97 100, 100), (mkRat 97 100, 200), (mkRat 97 100, 300),
               (mkRat 97 100, 400), (mkRat 97 100, 500), (mkRat 97 100, 600),
               (mkRat 97 100, 700), (mkRat 97 100, 800), (mkRat 97 100, 900),
               (mkRat 97 100, 1000)]))).2 =
         List.replicate us1.length Act.skip ++
           Act.emit (jsToUpper "A") :: List.replicate us2.length Act.skip)) :=
  ⟨by decide, by decide, by decide, by decide,
   dwell_first_commit (mkRat 95 100) 600 "A" (by decide) (mkRat 97 100) 0
     [(mkRat 97 100, 100), (mkRat 97 100, 200), (mkRat 97 100, 300),
      (mkRat 97 100, 400), (mkRat 97 100, 500), (mkRat 97 100, 600),
      (mkRat 97 100, 700), (mkRat 97 100, 800), (mkRat 97 100, 900),
      (mkRat 97 100, 1000)] (by decide) (by decide)⟩

theorem runActs_append (thr : ℚ) (hold : Int) :
    ∀ (xs ys : List Ev) (s : EngineState),
      runActs thr hold s (xs ++ ys) =
        ((runActs thr hold (runActs thr hold s xs).1 ys).1,
         (runActs thr hold s xs).2 ++ (runActs thr hold (runActs thr hold s xs).1 ys).2) := by
  intro xs
  induction xs with
  | nil => intro ys s; rfl
  | cons e es ih =>
    intro ys s
    simp only [List.cons_append, runActs_cons, ih, List.append_assoc]

theorem belowRun (thr : ℚ) (hold : Int) :
    ∀ (ts : List (String × ℚ × Int)) (s : EngineState),
      s.releaseStart ≠ 0 → s.lastDetectedLabel = "" → s.stableSince = 0 →
      (∀ t ∈ ts, t.2.1 < thr) →
      runActs thr hold s (ticksOf ts) = (s, List.replicate ts.length Act.skip) := by
  intro ts
  induction ts with
  | nil => intro s _ _ _ _; rfl
  | cons t rest ih =>
    intro s hrs hd hss hbelow
    have hu : ticksOf (t :: rest) = Ev.tick t.1 t.2.1 t.2.2 :: ticksOf rest := rfl
    have hstep : onTick thr hold s t.1 t.2.1 t.2.2 = (s, Act.skip) := by
      rw [onTick_below thr hold s t.1 t.2.1 t.2.2 (hbelow t (List.mem_cons_self t rest))]
      rw [if_neg hrs, ← hd, ← hss]
    rw [hu, runActs_cons, step_tick, hstep,
        ih s hrs hd hss (fun q hq => hbelow q (List.mem_cons_of_mem t hq))]
    simp [List.replicate_succ]

theorem skip_merge (a b : Nat) :
    (Act.skip :: List.replicate a Act.skip) ++ Act.skip :: List.replicate b Act.skip =
    List.replicate (a + 2 + b) Act.skip := by
  have h : a + 2 + b = (a + 1) + (b + 1) := by omega
  rw [h, List.replicate_add, List.replicate_succ, List.replicate_succ]

theorem skip_merge2 (a b : Nat) (l : List Act) :
    (Act.skip :: List.replicate a Act.skip) ++ Act.skip :: (List.replicate b Act.skip ++ l) =
    List.replicate (a + 1 + (b + 1)) Act.skip ++ l := by
  rw [List.replicate_add, List.replicate_succ, List.replicate_succ]
  simp [List.append_assoc]

/-- C4: after a tick commits label L, a phase of below-threshold ticks
starting at a positive instant v0, followed by a phase of L-ticks at or
above threshold starting at least RELEASE_MS after v0, commits exactly
once more: every below-phase tick and every above-phase tick whose time
is within hold of the first above-phase time u0 does nothing, and the
single new commit of L happens at the first above-phase tick whose time
reaches u0 + hold (if any does). -/
theorem repeat_after_release (thr : ℚ) (hold : Int) (hhold : 0 < hold)
    (L : String) (hL : L ≠ "")
    (s0 : EngineState) (ce : ℚ) (te : Int)
    (hemit : (onTick thr hold s0 L ce te).2.isEmit = true)
    (lv : String) (cv : ℚ) (v0 : Int) (vrest : List (String × ℚ × Int))
    (hv0pos : 0 < v0) (hcv : cv < thr)
    (hvrest : ∀ t ∈ vrest, t.2.1 < thr)
    (cu : ℚ) (u0 : Int) (urest : List (ℚ × Int))
    (hcu : thr ≤ cu) (hurest : ∀ p ∈ urest, thr ≤ p.1)
    (hrel : v0 + RELEASE_MS ≤ u0)
    (humono : ∀ p ∈ urest, u0 ≤ p.2) :
    ((∀ p ∈ (cu, u0) :: urest, p.2 - u0 < hold) ∧
      (runActs thr hold (onTick thr hold s0 L ce te).1
          (ticksOf ((lv, cv, v0) :: vrest) ++
           uniformTicks L ((cu, u0) :: urest))).2 =
        List.replicate (vrest.length + 2 + urest.length) Act.skip) ∨
    (∃ us1 p us2, (cu, u0) :: urest = us1 ++ p :: us2 ∧
      (∀ q ∈ us1, q.2 - u0 < hold) ∧ hold ≤ p.2 - u0 ∧
      (runActs thr hold (onTick thr hold s0 L ce te).1
          (ticksOf ((lv, cv, v0) :: vrest) ++
           uniformTicks L ((cu, u0) :: urest))).2 =
        List.replicate (vrest.length + 1 + us1.length) Act.skip ++
          Act.emit (jsToUpper L) :: List.replicate us2.length Act.skip) := by
  obtain ⟨hd1, he1, hr1, -, -, -⟩ := onTick_emit_state thr hold s0 L ce te hemit
  have hv0ne : v0 ≠ 0 := ne_of_gt hv0pos
  -- the first below tick starts the release timer at v0
  have hstep2 : onTick thr hold (onTick thr hold s0 L ce te).1 lv cv v0 =
      ({ (onTick thr hold s0 L ce te).1 with
          lastDetectedLabel := "", stableSince := 0, releaseStart := v0 },
       Act.skip) := by
    rw [onTick_below thr hold (onTick thr hold s0 L ce te).1 lv cv v0 hcv]
    rw [if_pos hr1]
  -- the remaining below ticks change nothing
  have hbelowRun := belowRun thr hold vrest
    ({ (onTick thr hold s0 L ce te).1 with
        lastDetectedLabel := "", stableSince := 0, releaseStart := v0 })
    hv0ne rfl rfl hvrest
  -- the run over the whole below phase
  have hbelowPhase : runActs thr hold (onTick thr hold s0 L ce te).1
      (ticksOf ((lv, cv, v0) :: vrest)) =
      ({ (onTick thr hold s0 L ce te).1 with
          lastDetectedLabel := "", stableSince := 0, releaseStart := v0 },
       Act.skip :: List.replicate vrest.length Act.skip) := by
    have hu : ticksOf ((lv, cv, v0) :: vrest) =
        Ev.tick lv cv v0 :: ticksOf vrest := rfl
    rw [hu, runActs_cons, step_tick, hstep2, hbelowRun]
  -- the first above tick restarts the dwell timer and does nothing
  have hstep3 : onTick thr hold
      ({ (onTick thr hold s0 L ce te).1 with
          lastDetectedLabel := "", stableSince := 0, releaseStart := v0 })
      L cu u0 =
      ({ (onTick thr hold s0 L ce te).1 with
          lastDetectedLabel := L, stableSince := u0, releaseStart := v0 },
       Act.skip) := by
    rw [onTick_reset thr hold
      ({ (onTick thr hold s0 L ce te).1 with
          lastDetectedLabel := "", stableSince := 0, releaseStart := v0 })
      L cu u0 (fun h => hL h.symm) hcu]
    exact onTickHigh_skip hold _ L u0 (fun hcond => by
      have := hcond.2
      simp only at this
      omega)
  -- the rest of the above phase commits exactly at the first dwell tick
  have hDR := dwellRun thr hold L urest
    ({ (onTick thr hold s0 L ce te).1 with
        lastDetectedLabel := L, stableSince := u0, releaseStart := v0 })
    rfl hurest
    (fun p hp => Or.inr ⟨hv0pos, by
      have h1 := humono p hp
      simp only
      omega⟩)
  have hsplit : runActs thr hold (onTick thr hold s0 L ce te).1
      (ticksOf ((lv, cv, v0) :: vrest) ++ uniformTicks L ((cu, u0) :: urest)) =
      ((runActs thr hold
          ({ (onTick thr hold s0 L ce te).1 with
              lastDetectedLabel := L, stableSince := u0, releaseStart := v0 })
          (uniformTicks L urest)).1,
       (Act.skip :: List.replicate vrest.length Act.skip) ++
         Act.skip :: (runActs thr hold
            ({ (onTick thr hold s0 L ce te).1 with
                lastDetectedLabel := L, stableSince := u0, releaseStart := v0 })
            (uniformTicks L urest)).2) := by
    rw [runActs_append, hbelowPhase]
    have hu2 : uniformTicks L ((cu, u0) :: urest) =
        Ev.tick L cu u0 :: uniformTicks L urest := rfl
    rw [hu2, runActs_cons, step_tick, hstep3]
  rcases hDR with ⟨hall, hacts⟩ | ⟨us1, q, us2, heq, hus1, hq, hacts⟩
  · left
    constructor
    · intro r hr
      rcases List.mem_cons.mp hr with hre | hrm
      · rw [hre]
        simpa using hhold
      · exact hall r hrm
    · rw [hsplit]
      simp only [hacts]
      exact skip_merge vrest.length urest.length
  · right
    refine ⟨(cu, u0) :: us1, q, us2, by rw [heq]; rfl, ?_, hq, ?_⟩
    · intro r hr
      rcases List.mem_cons.mp hr with hre | hrm
      · rw [hre]
        simpa using hhold
      · exact hus1 r hrm
    · rw [hsplit]
      simp only [hacts, List.length_cons]
      exact skip_merge2 vrest.length us1.length
        (Act.emit (jsToUpper L) :: List.replicate us2.length Act.skip)




/-- Witness for C4, the doubled-letter scenario of the specification:
A commits at t = 600; confidence is 0.80 at t = 650, 750, 850; A returns
at 0.97 from t = 950 on; the second commit of A happens at t = 1550 and
every other action is skip. -/
theorem repeat_after_release_witness :
    (0 : Int) < 600 ∧ ("A" : String) ≠ "" ∧
    (onTick (mkRat 95 100) 600 c4Start "A" (mkRat 97 100) 600).2.isEmit = true ∧
    (0 : Int) < 650 ∧ mkRat 80 100 < mkRat 95 100 ∧
    (∀ t ∈ c4Below, t.2.1 < mkRat 95 100) ∧
    mkRat 95 100 ≤ mkRat 97 100 ∧
    (∀ p ∈ c4Above, mkRat 95 100 ≤ p.1) ∧
    (650 : Int) + RELEASE_MS ≤ 950 ∧
    (∀ p ∈ c4Above, (950 : Int) ≤ p.2) ∧
    (runActs (mkRat 95 100) 600
        (onTick (mkRat 95 100) 600 c4Start "A" (mkRat 97 100) 600).1
        (ticksOf (("A", mkRat 80 100, 650) :: c4Below) ++
         uniformTicks "A" ((mkRat 97 100, 950) :: c4Above))).2 =
      [Act.skip, Act.skip, Act.skip, Act.skip, Act.skip, Act.skip,
       Act.skip, Act.skip, Act.skip, Act.emit "A"] ∧
    (((∀ p ∈ (mkRat 97 100, (950 : Int)) :: c4Above, p.2 - 950 < 600) ∧
       (runActs (mkRat 95 100) 600
           (onTick (mkRat 95 100) 600 c4Start "A" (mkRat 97 100) 600).1
           (ticksOf (("A", mkRat 80 100, 650) :: c4Below) ++
            uniformTicks "A" ((mkRat 97 100, 950) :: c4Above))).2 =
         List.replicate (c4Below.length + 2 + c4Above.length) Act.skip) ∨
     (∃ us1 p us2, (mkRat 97 100, (950 : Int)) :: c4Above = us1 ++ p :: us2 ∧
       (∀ q ∈ us1, q.2 - 950 < 600) ∧ (600 : Int) ≤ p.2 - 950 ∧
       (runActs (mkRat 95 100) 600
           (onTick (mkRat 95 100) 600 c4Start "A" (mkRat 97 100) 600).1
           (ticksOf (("A", mkRat 80 100, 650) :: c4Below) ++
            uniformTicks "A" ((mkRat 97 100, 950) :: c4Above))).2 =
         List.replicate (c4Below.length + 1 + us1.length) Act.skip ++
           Act.emit (jsToUpper "A") :: List.replicate us2.length Act.skip)) :=
  ⟨by decide, by decide, by decide, by decide, by decide, by decide, by decide,
   by decide, by decide, by decide, by decide,
   repeat_after_release (mkRat 95 100) 600 (by decide) "A" (by decide)
     c4Start (mkRat 97 100) 600 (by decide)
     "A" (mkRat 80 100) 650 c4Below (by decide) (by decide) (by decide)
     (mkRat 97 100) 950 c4Above (by decide) (by decide) (by decide) (by decide)⟩


theorem onFire_fields (s : EngineState) :
    (onFire s).1.lastDetectedLabel = s.lastDetectedLabel ∧
    (onFire s).1.stableSince = s.stableSince ∧
    (onFire s).1.lastEmittedLabel = s.lastEmittedLabel ∧
    (onFire s).1.releaseStart = s.releaseStart := by
  rcases hp : s.pendingDeadline with _ | d
  · rw [onFire_none s hp]
    exact ⟨rfl, rfl, rfl, rfl⟩
  · have hsome : onFire s =
        if s.text ≠ "" ∧ jsEndsWith s.text " " = false then
          ({ s with pendingDeadline := none, text := s.text ++ " ",
                    out := " " :: s.out }, Act.boundary)
        else
          ({ s with pendingDeadline := none }, Act.skip) := by
      unfold onFire
      rw [hp]
    rw [hsome]
    split_ifs <;> exact ⟨rfl, rfl, rfl, rfl⟩

theorem tracking_inv_step (thr : ℚ) (hold : Int) (s : EngineState) (e : Ev)
    (hinv : s.stableSince ≠ 0 ↔ s.lastDetectedLabel ≠ "")
    (he : tickOk e = true) :
    ((step thr hold s e).1.stableSince ≠ 0 ↔
     (step thr hold s e).1.lastDetectedLabel ≠ "") := by
  cases e with
  | fire =>
    obtain ⟨h1, h2, -, -⟩ := onFire_fields s
    rw [step_fire, h1, h2]
    exact hinv
  | tick label conf now =>
    have hok : label ≠ "" ∧ 0 < now := by
      simpa [tickOk] using he
    rw [step_tick]
    by_cases hc : thr ≤ conf
    · by_cases hd : s.lastDetectedLabel = label
      · rw [onTick_same thr hold s label conf now hd hc]
        unfold onTickHigh
        split_ifs
        · exact hinv
        · exact hinv
      · rw [onTick_reset thr hold s label conf now hd hc]
        unfold onTickHigh
        split_ifs
        · exact iff_of_true hok.2.ne' hok.1
        · exact iff_of_true hok.2.ne' hok.1
    · rw [onTick_below thr hold s label conf now (not_le.mp hc)]
      simp

theorem tracking_inv_run (thr : ℚ) (hold : Int) :
    ∀ (evs : List Ev) (s : EngineState),
      (s.stableSince ≠ 0 ↔ s.lastDetectedLabel ≠ "") →
      (∀ e ∈ evs, tickOk e = true) →
      ((runActs thr hold s evs).1.stableSince ≠ 0 ↔
       (runActs thr hold s evs).1.lastDetectedLabel ≠ "") := by
  intro evs
  induction evs with
  | nil => intro s hinv _; exact hinv
  | cons e es ih =>
    intro s hinv hok
    rw [runActs_cons]
    exact ih (step thr hold s e).1
      (tracking_inv_step thr hold s e hinv (hok e (List.mem_cons_self e es)))
      (fun x hx => hok x (List.mem_cons_of_mem e hx))

/-- C9 amended: over runs whose ticks all carry a non-empty label and a
positive instant, in every state reachable from the initial one the
stability timer is non-zero exactly when the tracked label is non-empty;
the restriction is needed because an above-threshold tick with an empty
label (or one at instant 0) breaks the equivalence. -/
theorem tracking_invariant (thr : ℚ) (hold : Int) (evs : List Ev)
    (hok : ∀ e ∈ evs, tickOk e = true) :
    ((runActs thr hold init evs).1.stableSince ≠ 0 ↔
     (runActs thr hold init evs).1.lastDetectedLabel ≠ "") :=
  tracking_inv_run thr hold evs init (by simp [init]) hok

/-- Witness for C9 amended at a run with a tracking tick and a timer
firing: both sides of the equivalence hold. -/
theorem tracking_invariant_witness :
    (∀ e ∈ [Ev.tick "A" (mkRat 97 100) 1000, Ev.fire], tickOk e = true) ∧
    ((runActs (mkRat 95 100) 600 init
        [Ev.tick "A" (mkRat 97 100) 1000, Ev.fire]).1.stableSince ≠ 0 ↔
     (runActs (mkRat 95 100) 600 init
        [Ev.tick "A" (mkRat 97 100) 1000, Ev.fire]).1.lastDetectedLabel ≠ "") :=
  ⟨by decide,
   tracking_invariant (mkRat 95 100) 600
     [Ev.tick "A" (mkRat 97 100) 1000, Ev.fire] (by decide)⟩

/-- Counterexample to C9 as stated: with arbitrary labels allowed, an
above-threshold tick carrying the empty label after one carrying A leaves
the tracked label empty while the stability timer holds 2000, so the
equivalence between a non-zero trackedSince and a non-empty trackedLabel
fails on this reachable state. -/
theorem tracking_invariant_counterexample :
    (runActs (mkRat 95 100) 600 init
        [Ev.tick "A" (mkRat 97 100) 1000,
         Ev.tick "" (mkRat 97 100) 2000]).1.lastDetectedLabel = "" ∧
    (runActs (mkRat 95 100) 600 init
        [Ev.tick "A" (mkRat 97 100) 1000,
         Ev.tick "" (mkRat 97 100) 2000]).1.stableSince = 2000 ∧
    ¬ ((runActs (mkRat 95 100) 600 init
          [Ev.tick "A" (mkRat 97 100) 1000,
           Ev.tick "" (mkRat 97 100) 2000]).1.stableSince ≠ 0 ↔
        (runActs (mkRat 95 100) 600 init
          [Ev.tick "A" (mkRat 97 100) 1000,
           Ev.tick "" (mkRat 97 100) 2000]).1.lastDetectedLabel ≠ "") := by
  decide

theorem onTick_out (thr : ℚ) (hold : Int) (s : EngineState) (label : String)
    (conf : ℚ) (now : Int) :
    (onTick thr hold s label conf now).1.out = s.out ∨
    (onTick thr hold s label conf now).1.out = jsToUpper label :: s.out := by
  by_cases hc : thr ≤ conf
  · by_cases hd : s.lastDetectedLabel = label
    · rw [onTick_same thr hold s label conf now hd hc]
      unfold onTickHigh
      split_ifs
      · exact Or.inr rfl
      · exact Or.inl rfl
    · rw [onTick_reset thr hold s label conf now hd hc]
      unfold onTickHigh
      split_ifs
      · exact Or.inr rfl
      · exact Or.inl rfl
  · rw [onTick_below thr hold s label conf now (not_le.mp hc)]
    exact Or.inl rfl

theorem onFire_out (s : EngineState) :
    (onFire s).1.out = s.out ∨ (onFire s).1.out = " " :: s.out := by
  rcases hp : s.pendingDeadline with _ | d
  · rw [onFire_none s hp]
    exact Or.inl rfl
  · have hsome : onFire s =
        if s.text ≠ "" ∧ jsEndsWith s.text " " = false then
          ({ s with pendingDeadline := none, text := s.text ++ " ",
                    out := " " :: s.out }, Act.boundary)
        else
          ({ s with pendingDeadline := none }, Act.skip) := by
      unfold onFire
      rw [hp]
    rw [hsome]
    split_ifs
    · exact Or.inr rfl
    · exact Or.inl rfl

theorem out_origin (thr : ℚ) (hold : Int) :
    ∀ (evs : List Ev) (s : EngineState) (x : String),
      x ∈ (runActs thr hold s evs).1.out →
      x ∈ s.out ∨ x = " " ∨
        ∃ l c t, Ev.tick l c t ∈ evs ∧ x = jsToUpper l := by
  intro evs
  induction evs with
  | nil => intro s x hx; exact Or.inl hx
  | cons e es ih =>
    intro s x hx
    rw [runActs_cons] at hx
    rcases ih (step thr hold s e).1 x hx with hmem | hsp | ⟨l, c, t, hin, heq⟩
    · cases e with
      | tick l c t =>
        rcases onTick_out thr hold s l c t with h | h
        · rw [step_tick, h] at hmem
          exact Or.inl hmem
        · rw [step_tick, h] at hmem
          rcases List.mem_cons.mp hmem with hx1 | hx2
          · exact Or.inr (Or.inr ⟨l, c, t, List.mem_cons_self _ _, hx1⟩)
          · exact Or.inl hx2
      | fire =>
        rcases onFire_out s with h | h
        · rw [step_fire, h] at hmem
          exact Or.inl hmem
        · rw [step_fire, h] at hmem
          rcases List.mem_cons.mp hmem with hx1 | hx2
          · exact Or.inr (Or.inl hx1)
          · exact Or.inl hx2
    · exact Or.inr (Or.inl hsp)
    · exact Or.inr (Or.inr ⟨l, c, t, List.mem_cons_of_mem e hin, heq⟩)

/-- C8 amended: over any run from the initial state, every string passed
to the text sink append is either the single space inserted by the
boundary callback or the uppercased label of some tick of the run; the
stated form that every appended string is a single uppercase character or
a single space additionally requires the labels to be single letters. -/
theorem sink_payload_shape (thr : ℚ) (hold : Int) (evs : List Ev) (x : String)
    (hx : x ∈ (runActs thr hold init evs).1.out) :
    x = " " ∨ ∃ l c t, Ev.tick l c t ∈ evs ∧ x = jsToUpper l := by
  rcases out_origin thr hold evs init x hx with h | h
  · simp [init] at h
  · exact h

/-- Witness for C8 amended: the run that commits the label a appends
exactly the string A, which is the uppercased label of a tick. -/
theorem sink_payload_shape_witness :
    "A" ∈ (runActs (mkRat 95 100) 600 init
        [Ev.tick "a" (mkRat 97 100) 100, Ev.tick "a" (mkRat 97 100) 700]).1.out ∧
    (("A" : String) = " " ∨
      ∃ l c t, Ev.tick l c t ∈
          [Ev.tick "a" (mkRat 97 100) 100, Ev.tick "a" (mkRat 97 100) 700] ∧
        ("A" : String) = jsToUpper l) :=
  ⟨by decide,
   sink_payload_shape (mkRat 95 100) 600
     [Ev.tick "a" (mkRat 97 100) 100, Ev.tick "a" (mkRat 97 100) 700] "A"
     (by decide)⟩

/-- Counterexample to C8 as stated: with an arbitrary label ab held above
threshold, the engine passes the two-character string AB to the text sink
append, which is neither a single uppercase character nor a single
space. -/
theorem sink_payload_counterexample :
    "AB" ∈ (runActs (mkRat 95 100) 600 init
        [Ev.tick "ab" (mkRat 97 100) 100, Ev.tick "ab" (mkRat 97 100) 700]).1.out ∧
    ("AB" : String).data.length = 2 ∧ ("AB" : String) ≠ " " := by
  decide

theorem releaseStart_origin_step (thr : ℚ) (hold : Int) (s : EngineState) (e : Ev) :
    (step thr hold s e).1.releaseStart = s.releaseStart ∨
    (step thr hold s e).1.releaseStart = 0 ∨
    (∃ l c t, e = Ev.tick l c t ∧ c < thr ∧
      (step thr hold s e).1.releaseStart = t) := by
  cases e with
  | fire =>
    rw [step_fire]
    exact Or.inl (onFire_fields s).2.2.2
  | tick l c t =>
    rw [step_tick]
    by_cases hc : thr ≤ c
    · by_cases hd : s.lastDetectedLabel = l
      · rw [onTick_same thr hold s l c t hd hc]
        unfold onTickHigh
        split_ifs
        · exact Or.inr (Or.inl rfl)
        · exact Or.inl rfl
      · rw [onTick_reset thr hold s l c t hd hc]
        unfold onTickHigh
        split_ifs
        · exact Or.inr (Or.inl rfl)
        · exact Or.inl rfl
    · rw [onTick_below thr hold s l c t (not_le.mp hc)]
      by_cases hz : s.releaseStart = 0
      · refine Or.inr (Or.inr ⟨l, c, t, rfl, not_le.mp hc, ?_⟩)
        show (if s.releaseStart = 0 then t else s.releaseStart) = t
        rw [if_pos hz]
      · refine Or.inl ?_
        show (if s.releaseStart = 0 then t else s.releaseStart) = s.releaseStart
        rw [if_neg hz]

theorem releaseStart_origin_run (thr : ℚ) (hold : Int) :
    ∀ (evs : List Ev) (s : EngineState),
      (runActs thr hold s evs).1.releaseStart = s.releaseStart ∨
      (runActs thr hold s evs).1.releaseStart = 0 ∨
      (∃ l c t, Ev.tick l c t ∈ evs ∧ c < thr ∧
        (runActs thr hold s evs).1.releaseStart = t) := by
  intro evs
  induction evs with
  | nil => intro s; exact Or.inl rfl
  | cons e es ih =>
    intro s
    rw [runActs_cons]
    rcases ih (step thr hold s e).1 with h | h | ⟨l, c, t, hin, hlt, heq⟩
    · rcases releaseStart_origin_step thr hold s e with h2 | h2 | ⟨l, c, t, he2, hlt, heq2⟩
      · exact Or.inl (h.trans h2)
      · exact Or.inr (Or.inl (h.trans h2))
      · refine Or.inr (Or.inr ⟨l, c, t, ?_, hlt, h.trans heq2⟩)
        rw [he2]
        exact List.mem_cons_self _ _
    · exact Or.inr (Or.inl h)
    · exact Or.inr (Or.inr ⟨l, c, t, List.mem_cons_of_mem e hin, hlt, heq⟩)

/-- C3 amended: a tick that commits the same label as the last committed
one requires the release timer to be set (non-zero) and started at least
RELEASE_MS = 300 ms before that tick; and in any run from the initial
state a set release timer always holds the time of some below-threshold
tick of the run (the first one of the current below-threshold excursion).
The code does not require confidence to stay below the threshold for the
whole 300 ms: a single below-threshold tick followed by above-threshold
ticks suffices once 300 ms have passed since it. -/
theorem release_requires_release_timer :
    (∀ (thr : ℚ) (hold : Int) (s : EngineState) (l : String) (c : ℚ) (t : Int),
        s.lastEmittedLabel = l →
        (onTick thr hold s l c t).2.isEmit = true →
        0 < s.releaseStart ∧ RELEASE_MS ≤ t - s.releaseStart) ∧
    (∀ (thr : ℚ) (hold : Int) (evs : List Ev),
        (runActs thr hold init evs).1.releaseStart ≠ 0 →
        ∃ l c t, Ev.tick l c t ∈ evs ∧ c < thr ∧
          (runActs thr hold init evs).1.releaseStart = t) := by
  constructor
  · intro thr hold s l c t he hemit
    by_cases hc : thr ≤ c
    · by_cases hd : s.lastDetectedLabel = l
      · rw [onTick_same thr hold s l c t hd hc] at hemit
        unfold onTickHigh at hemit
        split_ifs at hemit with hcond
        · rcases hcond.1 with hne | hrel
          · exact absurd he.symm hne
          · exact hrel
        · simp [Act.isEmit] at hemit
      · rw [onTick_reset thr hold s l c t hd hc] at hemit
        unfold onTickHigh at hemit
        split_ifs at hemit with hcond
        · rcases hcond.1 with hne | hrel
          · exact absurd he.symm hne
          · exact hrel
        · simp [Act.isEmit] at hemit
    · rw [onTick_below thr hold s l c t (not_le.mp hc)] at hemit
      simp [Act.isEmit] at hemit
  · intro thr hold evs hne
    rcases releaseStart_origin_run thr hold evs init with h | h | h
    · exact absurd h (by simpa [init] using hne)
    · exact absurd h hne
    · exact h

/-- Witness for C3 amended: the tick that re-commits A at t = 1550 finds
the release timer set at 650, which is more than 300 ms earlier. -/
theorem release_requires_release_timer_witness :
    (⟨"A", 950, "A", 650, none, "A", ["A"]⟩ : EngineState).lastEmittedLabel = "A" ∧
    (onTick (mkRat 95 100) 600 (⟨"A", 950, "A", 650, none, "A", ["A"]⟩ : EngineState)
        "A" (mkRat 97 100) 1550).2.isEmit = true ∧
    (0 < (⟨"A", 950, "A", 650, none, "A", ["A"]⟩ : EngineState).releaseStart ∧
      RELEASE_MS ≤ 1550 - (⟨"A", 950, "A", 650, none, "A", ["A"]⟩ : EngineState).releaseStart) :=
  ⟨by decide, by decide,
   release_requires_release_timer.1 (mkRat 95 100) 600
     ⟨"A", 950, "A", 650, none, "A", ["A"]⟩ "A" (mkRat 97 100) 1550
     (by decide) (by decide)⟩


/-- Counterexample to C3 as stated: on this run the label A is committed
at ticks 6 (t = 600) and 20 (t = 1300), yet between the two commits every
stretch of consecutive below-threshold ticks spans less than
RELEASE_MS = 300 ms (the only below-threshold tick is the single one at
t = 650), so no continuous below-threshold interval of length at least
300 ms separates the two commits. -/
theorem release_continuity_counterexample :
    (runActs (mkRat 95 100) 600 init (ticksOf c3Trace)).2.getD 6 Act.skip =
      Act.emit "A" ∧
    (runActs (mkRat 95 100) 600 init (ticksOf c3Trace)).2.getD 20 Act.skip =
      Act.emit "A" ∧
    (c3Trace.getD 6 ("", 0, 0)).1 = "A" ∧
    (c3Trace.getD 20 ("", 0, 0)).1 = "A" ∧
    (∀ p ∈ List.range 21, ∀ q ∈ List.range 21, 6 < p → p ≤ q → q < 20 →
       (∀ k ∈ List.range 21, p ≤ k → k ≤ q →
          (c3Trace.getD k ("", 0, 0)).2.1 < mkRat 95 100) →
       (c3Trace.getD q ("", 0, 0)).2.2 - (c3Trace.getD p ("", 0, 0)).2.2 <
         RELEASE_MS) := by
  decide
